import Mathlib

/-!
Verification of the vss-tools binary exporter (`vssexporters/vss2binary.py`)
and the symbol registry (`vspec/model/constants.py`).

The Python source is shallowly embedded: each Python function becomes a Lean
definition with the same name where possible; the per-node record emission
through the native `createBinaryCnode` sink is modelled as list production
(pure traversal) and, for failure analysis, as an `Except` computation over an
explicit sink predicate.
-/

set_option maxHeartbeats 1000000

namespace VSS

/-! ## Allowed-list encoding (vss2binary.py lines 23-40) -/

/-- Code point computed by `intToHexChar` before the `chr` conversion:
`hexInt < 10 → hexInt + ord('0')`, else `hexInt - 10 + ord('A')`. -/
def hexCharCode (hexInt : Nat) : Nat :=
  if hexInt < 10 then hexInt + 48 else hexInt - 10 + 65

/-- Function `intToHexChar` from vss2binary.py: digit 0-9 to `'0'`-`'9'`,
10-15 to `'A'`-`'F'` (no bound check; larger inputs map past `'F'`). This
`Char`-level embedding is exact wherever the digit stays below 16 — the only
range the claims using it quantify over; `intToHexCharE` below models the
`chr` conversion's failure for larger digits. -/
def intToHexChar (hexInt : Nat) : Char :=
  Char.ofNat (hexCharCode hexInt)

/-- Function `hexAllowedLen` from vss2binary.py: two-character length header,
digits `len // 16` and `len - (len // 16) * 16`. -/
def hexAllowedLen (allowed : String) : String :=
  let hexDigit1 := allowed.length / 16
  let hexDigit2 := allowed.length - hexDigit1 * 16
  String.mk [intToHexChar hexDigit1, intToHexChar hexDigit2]

/-- Function `allowedString` from vss2binary.py: left fold accumulating
`hexAllowedLen elem ++ elem` for each element. -/
def allowedString (allowedList : List String) : String :=
  allowedList.foldl (fun allowedStr elem => allowedStr ++ hexAllowedLen elem ++ elem) ""

/-- Value of a hexadecimal digit character as read back by a decoder:
`'0'`-`'9'` are 0-9 and `'A'`-`'F'` are 10-15; anything else is invalid. -/
def hexCharVal (c : Char) : Option Nat :=
  if 48 ≤ c.toNat ∧ c.toNat ≤ 57 then some (c.toNat - 48)
  else if 65 ≤ c.toNat ∧ c.toNat ≤ 70 then some (c.toNat - 65 + 10)
  else none

/-- Greedy decoder for `allowedString` output: repeatedly read a
two-hex-digit length `n`, then take the next `n` characters as one element. -/
def decodeAllowed : List Char → Option (List String)
  | [] => some []
  | [_] => none
  | c1 :: c2 :: rest =>
    match hexCharVal c1, hexCharVal c2 with
    | some d1, some d2 =>
      let n := d1 * 16 + d2
      if n ≤ rest.length then
        match decodeAllowed (rest.drop n) with
        | some tail => some (String.mk (rest.take n) :: tail)
        | none => none
      else none
    | _, _ => none
termination_by l => l.length
decreasing_by simp [List.length_drop]; omega

/-! ### Code-point-level model of the header with `chr` failure

Python `chr(i)` raises `ValueError` for `i > 0x10FFFF` and otherwise returns
the character with code point `i` (surrogates included, which Lean's `Char`
cannot carry). The following definitions therefore keep characters as raw
code points, with `none` standing for the raised `ValueError`; they make the
header computation faithful for arbitrarily long elements. -/

/-- Python `chr` at code-point level: the code point itself when
representable, `none` for the `ValueError` raised past `0x10FFFF`. -/
def chrCode (n : Nat) : Option Nat :=
  if n ≤ 1114111 then some n else none

/-- Function `intToHexChar` with the `chr` failure made explicit, at
code-point level. -/
def intToHexCharE (hexInt : Nat) : Option Nat :=
  chrCode (hexCharCode hexInt)

/-- Function `hexAllowedLen` with the `chr` failure propagated: the two
header code points, or `none` when Python would raise `ValueError`. -/
def hexAllowedLenE (allowed : String) : Option (List Nat) :=
  match intToHexCharE (allowed.length / 16),
        intToHexCharE (allowed.length - allowed.length / 16 * 16) with
  | some c1, some c2 => some [c1, c2]
  | _, _ => none

/-- Value of a hexadecimal digit at code-point level: codes of `'0'`-`'9'`
are 0-9 and codes of `'A'`-`'F'` are 10-15; anything else is invalid. -/
def hexCodeVal (c : Nat) : Option Nat :=
  if 48 ≤ c ∧ c ≤ 57 then some (c - 48)
  else if 65 ≤ c ∧ c ≤ 70 then some (c - 65 + 10)
  else none

/-- Reads a two-code-point length header back as a number, if both code
points are hex digits in the encoder's alphabet. -/
def decodeLenCodes : List Nat → Option Nat
  | [c1, c2] =>
    match hexCodeVal c1, hexCodeVal c2 with
    | some d1, some d2 => some (d1 * 16 + d2)
    | _, _ => none
  | _ => none

/-! ## Symbol registry (vspec/model/constants.py) -/

/-- The `VSSConstant` named tuple: label, value, optional description and domain. -/
structure VSSConstant where
  label : String
  value : String
  description : Option String := none
  domain : Option String := none
deriving DecidableEq

/-- The `VSSType` enumeration members (constants.py lines 115-121). -/
inductive VSSType where
  | BRANCH
  | RBRANCH
  | ATTRIBUTE
  | SENSOR
  | ACTUATOR
  | ELEMENT
deriving DecidableEq

/-- The `value` token of each `VSSType` member. -/
def VSSType.value : VSSType → String
  | .BRANCH => "branch"
  | .RBRANCH => "rbranch"
  | .ATTRIBUTE => "attribute"
  | .SENSOR => "sensor"
  | .ACTUATOR => "actuator"
  | .ELEMENT => "element"

/-- The `VSSDataType` enumeration members (constants.py lines 124-150). -/
inductive VSSDataType where
  | INT8
  | UINT8
  | INT16
  | UINT16
  | INT32
  | UINT32
  | INT64
  | UINT64
  | BOOLEAN
  | FLOAT
  | DOUBLE
  | STRING
  | UNIX_TIMESTAMP
  | INT8_ARRAY
  | UINT8_ARRAY
  | INT16_ARRAY
  | UINT16_ARRAY
  | INT32_ARRAY
  | UINT32_ARRAY
  | INT64_ARRAY
  | UINT64_ARRAY
  | BOOLEAN_ARRAY
  | FLOAT_ARRAY
  | DOUBLE_ARRAY
  | STRING_ARRAY
  | UNIX_TIMESTAMP_ARRAY
deriving DecidableEq

/-- The `value` token of each `VSSDataType` member. -/
def VSSDataType.value : VSSDataType → String
  | .INT8 => "int8"
  | .UINT8 => "uint8"
  | .INT16 => "int16"
  | .UINT16 => "uint16"
  | .INT32 => "int32"
  | .UINT32 => "uint32"
  | .INT64 => "int64"
  | .UINT64 => "uint64"
  | .BOOLEAN => "boolean"
  | .FLOAT => "float"
  | .DOUBLE => "double"
  | .STRING => "string"
  | .UNIX_TIMESTAMP => "UNIX Timestamp"
  | .INT8_ARRAY => "int8[]"
  | .UINT8_ARRAY => "uint8[]"
  | .INT16_ARRAY => "int16[]"
  | .UINT16_ARRAY => "uint16[]"
  | .INT32_ARRAY => "int32[]"
  | .UINT32_ARRAY => "uint32[]"
  | .INT64_ARRAY => "int64[]"
  | .UINT64_ARRAY => "uint64[]"
  | .BOOLEAN_ARRAY => "boolean[]"
  | .FLOAT_ARRAY => "float[]"
  | .DOUBLE_ARRAY => "double[]"
  | .STRING_ARRAY => "string[]"
  | .UNIX_TIMESTAMP_ARRAY => "UNIX Timestamp[]"

/-- Modelled from the spec: the registry key derivation performed by
`NON_ALPHANUMERIC_WORD.sub('', label).upper()` in `dict_to_constant_config`.
The regular expression `NON_ALPHANUMERIC_WORD` is defined in
`vspec/model/__init__.py`, which is not part of the sources here; the spec
states the derivation deletes every character that is not a letter or digit
and upper-cases the remainder. -/
def derivedKey (label : String) : String :=
  String.mk ((label.data.filter (fun c => c.isAlpha || c.isDigit)).map Char.toUpper)

/-- One configuration entry for a token: mandatory `label`, optional
`description` and `domain` (the `assert` on a present label is modelled by
making the field mandatory). -/
structure ConfigInfo where
  label : String
  description : Option String := none
  domain : Option String := none
deriving DecidableEq

/-- Function `dict_to_constant_config` (constants.py lines 153-159): derives the
attribute key from the label and builds the constant
`VSSConstant(label, name, description, domain)`. -/
def dict_to_constant_config (name : String) (info : ConfigInfo) : String × VSSConstant :=
  (derivedKey info.label, ⟨info.label, name, info.description, info.domain⟩)

/-- Function `iterate_config_members` (constants.py lines 162-166), applied to one
configuration section given as an ordered token-to-info mapping. -/
def iterate_config_members (config : List (String × ConfigInfo)) : List (String × VSSConstant) :=
  config.map (fun p => dict_to_constant_config p.1 p.2)

/-- Python `dict` assignment `m[k] = v`: replaces the value in place when the
key exists (keeping its insertion position), otherwise appends. -/
def dictInsert {V : Type} : List (String × V) → String → V → List (String × V)
  | [], k, v => [(k, v)]
  | (k0, v0) :: rest, k, v =>
    if k0 = k then (k, v) :: rest else (k0, v0) :: dictInsert rest k v

/-- Python `dict` lookup `m[k]`, with `none` standing for the `KeyError`. -/
def dictLookup {V : Type} : List (String × V) → String → Option V
  | [], _ => none
  | (k0, v0) :: rest, k => if k0 = k then some v0 else dictLookup rest k

/-- State of a configurable enumeration class: the class attribute namespace
written by `setattr` and the `__reverse_lookup__` mapping from value token to
constant; `__values__` is derived from the reverse lookup's keys. -/
structure EnumState where
  attrs : List (String × VSSConstant)
  reverse_lookup : List (String × VSSConstant)
deriving DecidableEq

/-- Method `VSSEnumMetaConfigurable.add_config` (constants.py lines 85-89): for each
configuration member, `setattr(cls, k, v)` and
`cls.__reverse_lookup__[v.value] = v`. -/
def add_config (st : EnumState) (config : List (String × ConfigInfo)) : EnumState :=
  (iterate_config_members config).foldl
    (fun st kv =>
      { attrs := dictInsert st.attrs kv.1 kv.2
        reverse_lookup := dictInsert st.reverse_lookup kv.2.value kv.2 })
    st

/-- Method `from_str` (constants.py lines 91-92): `cls.__reverse_lookup__[value]`. -/
def from_str (st : EnumState) (value : String) : Option VSSConstant :=
  dictLookup st.reverse_lookup value

/-- Method `values` (constants.py lines 94-95): the tuple of reverse-lookup keys,
recomputed by `add_config` as `tuple(cls.__reverse_lookup__.keys())`. -/
def EnumState.values (st : EnumState) : List String :=
  st.reverse_lookup.map (fun p => p.1)

/-! ## Tree encoder (vss2binary.py lines 46-124) -/

/-- The per-node attributes read by `export_node` (the `VSSNode` fields).
`unit` is the already-resolved registry member or structurally absent
(the `AttributeError` case); `aggregate` may likewise be absent. -/
structure NodeData where
  name : String
  type : VSSType
  data_type : VSSDataType
  description : String
  min : String
  max : String
  allowed : List String
  default_value : String
  deprecation : String
  unit : Option VSSConstant
  aggregate : Option String
  comment : String
  uuid : String
deriving DecidableEq

/-- A specification tree node: its attributes plus the ordered children. -/
inductive VSSNode where
  | mk (data : NodeData) (children : List VSSNode)

/-- The attribute part of a node. -/
def VSSNode.data : VSSNode → NodeData
  | .mk d _ => d

/-- The ordered children of a node. -/
def VSSNode.children : VSSNode → List VSSNode
  | .mk _ cs => cs

/-- One emitted binary record: the exact arguments `export_node` passes to
`createBinaryCnode` (vss2binary.py line 121), minus the output file name. -/
structure Record where
  name : String
  type : String
  uuid : String
  description : String
  data_type : String
  min : String
  max : String
  unit : String
  allowed : String
  default : String
  validate : String
  children : Nat
deriving DecidableEq

/-- The record `export_node` builds for one node (vss2binary.py lines 46-121):
field-by-field translation of the local-variable assignments feeding the
`createBinaryCnode` call. -/
def mkRecord (generate_uuid : Bool) (d : NodeData) (numChildren : Nat) : Record :=
  { name := d.name
    type := d.type.value
    uuid := if generate_uuid then d.uuid else ""
    description := d.description
    data_type :=
      if d.type = VSSType.SENSOR ∨ d.type = VSSType.ACTUATOR ∨ d.type = VSSType.ATTRIBUTE
      then d.data_type.value else ""
    min := d.min
    max := d.max
    unit := match d.unit with
      | some u => u.value
      | none => ""
    allowed := allowedString d.allowed
    default := d.default_value
    validate := ""
    children := numChildren }

mutual

/-- Function `export_node` (vss2binary.py lines 46-124) as record-stream production:
emit this node's record, then recurse over the children in order. -/
def export_node (generate_uuid : Bool) : VSSNode → List Record
  | .mk d cs => mkRecord generate_uuid d cs.length :: exportChildren generate_uuid cs

/-- The recursion over `node.children` at the end of `export_node`. -/
def exportChildren (generate_uuid : Bool) : List VSSNode → List Record
  | [] => []
  | n :: ns => export_node generate_uuid n ++ exportChildren generate_uuid ns

end

mutual

/-- Specification-side pre-order listing of a tree's nodes: the root first,
then the children's subtrees in child order. -/
def preorder : VSSNode → List VSSNode
  | .mk d cs => VSSNode.mk d cs :: preorderList cs

/-- Pre-order listing of a forest, in order. -/
def preorderList : List VSSNode → List VSSNode
  | [] => []
  | n :: ns => preorder n ++ preorderList ns

end

mutual

/-- Total node count of a tree. -/
def treeSize : VSSNode → Nat
  | .mk _ cs => 1 + forestSize cs

/-- Total node count of a forest. -/
def forestSize : List VSSNode → Nat
  | [] => 0
  | n :: ns => treeSize n + forestSize ns

end

/-- Replaces only the deprecation, comment and aggregate attributes of a
node's data. -/
def NodeData.withMeta (d : NodeData) (dep com : String) (agg : Option String) : NodeData :=
  { d with deprecation := dep, comment := com, aggregate := agg }

/-- A concrete sensor node used to instantiate hypotheses at a sample input. -/
def sensorNodeData : NodeData :=
  { name := "Speed", type := VSSType.SENSOR, data_type := VSSDataType.FLOAT,
    description := "speed", min := "", max := "", allowed := [], default_value := "",
    deprecation := "", unit := none, aggregate := none, comment := "", uuid := "u" }

/-- A concrete one-entry unit registry holding the token `km/h`. -/
def regKmh : EnumState :=
  { attrs := [("KMH", ⟨"kilometers per hour", "km/h", none, none⟩)]
    reverse_lookup := [("km/h", ⟨"kilometers per hour", "km/h", none, none⟩)] }

/-- A concrete configuration re-registering `km/h` and adding `mph`. -/
def cfgUnits : List (String × ConfigInfo) :=
  [("km/h", ⟨"kilometre per hour", some "updated", none⟩),
   ("mph", ⟨"miles per hour", none, none⟩)]

/-! ## Failure model of encode (spec section 4.2 and 7) -/

/-- Node attributes with the unit still a raw token (`none` = unset). -/
structure NodeDataU where
  name : String
  type : VSSType
  data_type : VSSDataType
  description : String
  min : String
  max : String
  allowed : List String
  default_value : String
  deprecation : String
  unit : Option String
  aggregate : Option String
  comment : String
  uuid : String
deriving DecidableEq

/-- A tree of unresolved nodes. -/
inductive NodeU where
  | mk (data : NodeDataU) (children : List NodeU)

/-- The attribute part of an unresolved node. -/
def NodeU.data : NodeU → NodeDataU
  | .mk d _ => d

/-- The ordered children of an unresolved node. -/
def NodeU.children : NodeU → List NodeU
  | .mk _ cs => cs

/-- The two ways `encode` can fail per the spec: a sink failure propagated
from the record writer, or an unresolved registry token. -/
inductive EncodeError where
  | sinkError
  | unresolvedSymbol (token : String)
deriving DecidableEq

/-- Modelled from the spec: unit resolution for the record's `unit` field —
empty string if `node.unit` is unset, otherwise `registry.resolve(node.unit)`
failing with `UnresolvedSymbolError` when the token has no entry. The call
site that resolves the raw token through `Unit.from_str` lives in
`vspec/model/vsstree.py`, which is not among the sources here; `from_str`
itself (constants.py lines 91-92) is the lookup used. -/
def resolveUnit (st : EnumState) : Option String → Except EncodeError String
  | none => Except.ok ""
  | some tok =>
    match from_str st tok with
    | some c => Except.ok c.value
    | none => Except.error (EncodeError.unresolvedSymbol tok)

/-- The record built for an unresolved node once its unit value is known. -/
def mkRecordU (generate_uuid : Bool) (d : NodeDataU) (unitVal : String) (numChildren : Nat) :
    Record :=
  { name := d.name
    type := d.type.value
    uuid := if generate_uuid then d.uuid else ""
    description := d.description
    data_type :=
      if d.type = VSSType.SENSOR ∨ d.type = VSSType.ACTUATOR ∨ d.type = VSSType.ATTRIBUTE
      then d.data_type.value else ""
    min := d.min
    max := d.max
    unit := unitVal
    allowed := allowedString d.allowed
    default := d.default_value
    validate := ""
    children := numChildren }

mutual

/-- Operation `encode` with explicit failure: resolve the node's unit, emit the record
through the sink (a `false` answer is the sink's failure signal), then encode
the children; the first failure aborts the traversal. -/
def encodeE (st : EnumState) (sink : Record → Bool) (generate_uuid : Bool) :
    NodeU → Except EncodeError (List Record)
  | .mk d cs =>
    match resolveUnit st d.unit with
    | Except.error e => Except.error e
    | Except.ok u =>
      let r := mkRecordU generate_uuid d u cs.length
      if sink r then
        match encodeForestE st sink generate_uuid cs with
        | Except.ok rs => Except.ok (r :: rs)
        | Except.error e => Except.error e
      else Except.error EncodeError.sinkError

/-- Operation `encodeE` over a forest, left to right. -/
def encodeForestE (st : EnumState) (sink : Record → Bool) (generate_uuid : Bool) :
    List NodeU → Except EncodeError (List Record)
  | [] => Except.ok []
  | n :: ns =>
    match encodeE st sink generate_uuid n with
    | Except.ok rs =>
      match encodeForestE st sink generate_uuid ns with
      | Except.ok rs2 => Except.ok (rs ++ rs2)
      | Except.error e => Except.error e
    | Except.error e => Except.error e

end

/-- A concrete unresolved node whose unit token `mph` is not in `regKmh`. -/
def badNodeDataU : NodeDataU :=
  { name := "Speed", type := VSSType.SENSOR, data_type := VSSDataType.FLOAT,
    description := "speed", min := "", max := "", allowed := [], default_value := "",
    deprecation := "", unit := some "mph", aggregate := none, comment := "", uuid := "u" }

/-- The same node with the unit attribute unset. -/
def goodNodeDataU : NodeDataU :=
  { badNodeDataU with unit := none }

/-! ### Helper lemmas for the hex header -/

theorem hexCharVal_intToHexChar : ∀ d < 16, hexCharVal (intToHexChar d) = some d := by
  decide

theorem hexCharCode_of_gt (d : Nat) (h : 15 < d) : hexCharCode d = d + 55 := by
  unfold hexCharCode
  split <;> omega

theorem hexCodeVal_hexCharCode : ∀ d < 16, hexCodeVal (hexCharCode d) = some d := by
  decide

theorem hexCharCode_le_of_lt (d : Nat) (h : d < 1114057) : hexCharCode d ≤ 1114111 := by
  unfold hexCharCode
  split <;> omega

theorem hexAllowedLenE_eq_of_lt (e : String) (h : e.length < 17824912) :
    hexAllowedLenE e
      = some [hexCharCode (e.length / 16),
          hexCharCode (e.length - e.length / 16 * 16)] := by
  have hv1 : hexCharCode (e.length / 16) ≤ 1114111 :=
    hexCharCode_le_of_lt _ (by omega)
  have hv2 : hexCharCode (e.length - e.length / 16 * 16) ≤ 1114111 :=
    hexCharCode_le_of_lt _ (by omega)
  unfold hexAllowedLenE intToHexCharE chrCode
  rw [if_pos hv1, if_pos hv2]

theorem hexAllowedLenE_none_of_ge (e : String) (h : 17824912 ≤ e.length) :
    hexAllowedLenE e = none := by
  have h1 : 15 < e.length / 16 := by omega
  have hnv : ¬ hexCharCode (e.length / 16) ≤ 1114111 := by
    rw [hexCharCode_of_gt _ h1]
    omega
  unfold hexAllowedLenE intToHexCharE chrCode
  rw [if_neg hnv]

theorem hexCodeVal_none_of_gt (d : Nat) (h : 15 < d) :
    hexCodeVal (hexCharCode d) = none := by
  unfold hexCodeVal
  rw [hexCharCode_of_gt _ h, if_neg (by omega), if_neg (by omega)]

theorem hexAllowedLen_data (e : String) :
    (hexAllowedLen e).data
      = [intToHexChar (e.length / 16), intToHexChar (e.length - e.length / 16 * 16)] :=
  rfl

theorem allowedString_foldl_acc (l : List String) (acc : String) :
    l.foldl (fun allowedStr elem => allowedStr ++ hexAllowedLen elem ++ elem) acc
      = acc ++ l.foldl (fun allowedStr elem => allowedStr ++ hexAllowedLen elem ++ elem) "" := by
  induction l generalizing acc with
  | nil => simp [List.foldl]
  | cons e rest ih =>
    rw [List.foldl, List.foldl, ih (acc ++ hexAllowedLen e ++ e),
      ih ("" ++ hexAllowedLen e ++ e)]
    simp [String.append_assoc]

theorem allowedString_cons (e : String) (l : List String) :
    allowedString (e :: l) = hexAllowedLen e ++ e ++ allowedString l := by
  unfold allowedString
  rw [List.foldl, allowedString_foldl_acc]
  simp [String.append_assoc]

theorem allowedString_length (l : List String) :
    (allowedString l).length = (l.map (fun e => e.length + 2)).sum := by
  induction l with
  | nil => rfl
  | cons e rest ih =>
    rw [allowedString_cons]
    simp [String.length_append, ih]
    have h2 : (hexAllowedLen e).length = 2 := rfl
    omega

theorem string_length_eq_data_length (s : String) : s.length = s.data.length :=
  rfl

theorem string_mk_data (s : String) : String.mk s.data = s :=
  rfl

theorem decodeAllowed_allowedString (l : List String) (h : ∀ e ∈ l, e.length ≤ 255) :
    decodeAllowed (allowedString l).data = some l := by
  induction l with
  | nil =>
    rw [show (allowedString []).data = ([] : List Char) from rfl, decodeAllowed]
  | cons e rest ih =>
    have he : e.length ≤ 255 := h e (by simp)
    have hrest : ∀ x ∈ rest, x.length ≤ 255 := fun x hx => h x (by simp [hx])
    have hdata : (allowedString (e :: rest)).data
        = intToHexChar (e.length / 16) :: intToHexChar (e.length - e.length / 16 * 16)
          :: (e.data ++ (allowedString rest).data) := by
      rw [allowedString_cons]
      simp [String.data_append, hexAllowedLen_data]
    rw [hdata, decodeAllowed,
      hexCharVal_intToHexChar _ (by omega), hexCharVal_intToHexChar _ (by omega)]
    have hn : e.length / 16 * 16 + (e.length - e.length / 16 * 16) = e.data.length := by
      have hd : e.length = e.data.length := string_length_eq_data_length e
      omega
    simp only [hn]
    rw [if_pos (by simp), List.take_left, List.drop_left, ih hrest, string_mk_data]

theorem join_cons (s : String) (l : List String) :
    String.join (s :: l) = s ++ String.join l := by
  apply String.ext
  simp [String.join_eq, String.data_append]

theorem hexAllowedLen_eq_mod (e : String) :
    hexAllowedLen e
      = String.mk [intToHexChar (e.length / 16), intToHexChar (e.length % 16)] := by
  have h : e.length - e.length / 16 * 16 = e.length % 16 := by omega
  apply String.ext
  rw [hexAllowedLen_data, h]

theorem allowedString_join_form (l : List String) :
    allowedString l = String.join (l.map (fun e =>
      String.mk [intToHexChar (e.length / 16), intToHexChar (e.length % 16)] ++ e)) := by
  induction l with
  | nil => rfl
  | cons e rest ih =>
    rw [allowedString_cons, hexAllowedLen_eq_mod, ih, List.map_cons, join_cons]

/-! ## Claims about the allowed-list encoding -/

/-- Claim C2: `allowedString` concatenates the ordered allowed strings, each
preceded by the two base-16 digits of its length, `len / 16` first then
`len % 16`, with 0-9 drawn as `'0'`-`'9'` and 10-15 as `'A'`-`'F'`; in
particular the empty list gives the empty string, one one-character element
gives a `01` header, and the digit letters appear for lengths 10 and 15. -/
theorem claim_C2 :
    (∀ l : List String, allowedString l = String.join (l.map (fun e =>
        String.mk [intToHexChar (e.length / 16), intToHexChar (e.length % 16)] ++ e)))
    ∧ intToHexChar 0 = Char.ofNat 48
    ∧ intToHexChar 9 = Char.ofNat 57
    ∧ intToHexChar 10 = Char.ofNat 65
    ∧ intToHexChar 15 = Char.ofNat 70
    ∧ allowedString [] = ""
    ∧ allowedString ["x"] = "01x"
    ∧ allowedString ["ab", "c"] = "02ab01c"
    ∧ allowedString ["0123456789"] = "0A0123456789"
    ∧ allowedString ["abcdefghijklmno"] = "0Fabcdefghijklmno" :=
  ⟨allowedString_join_form, by decide, by decide, by decide, by decide,
    by decide, by decide, by decide, by decide, by decide⟩

/-- Claim C3 counterexample: an element of length 17824912 lies in the
claim's range (length at least 256), yet the encoder does not silently
produce an incorrect header there — the first digit's code point,
`17824912 / 16 + 55 = 0x110000`, exceeds `0x10FFFF`, so the `chr` conversion
raises `ValueError` and the faithful header computation yields no output. -/
theorem claim_C3_counterexample :
    256 ≤ (String.mk (List.replicate 17824912 'a')).length
    ∧ hexAllowedLenE (String.mk (List.replicate 17824912 'a')) = none := by
  have hbig : (String.mk (List.replicate 17824912 'a')).length = 17824912 := by
    rw [string_length_eq_data_length, List.length_replicate]
  exact ⟨by omega, hexAllowedLenE_none_of_ge _ (by omega)⟩

/-- Claim C3 (amended): the two-character length header is a correct
two-hex-digit encoding exactly for element lengths 0 through 255; for every
element of length at least 256 and below 17824912 the encoder performs no
bounds check and silently produces an incorrect header — the first digit
`len / 16` exceeds 15, its code point lands past letter `F` (code 70), and
no hex decoder accepts the header; from length 17824912 on the `chr`
conversion of the first digit's code point (past `0x10FFFF`) raises
`ValueError` instead of producing a header. -/
theorem claim_C3 :
    (∀ e : String, e.length ≤ 255 →
        ∃ cs, hexAllowedLenE e = some cs ∧ decodeLenCodes cs = some e.length)
    ∧ (∀ e : String, 256 ≤ e.length → e.length < 17824912 →
        15 < e.length / 16
        ∧ 70 < hexCharCode (e.length / 16)
        ∧ ∃ cs, hexAllowedLenE e = some cs ∧ decodeLenCodes cs = none)
    ∧ (∀ e : String, 17824912 ≤ e.length → hexAllowedLenE e = none) := by
  refine ⟨?_, ?_, fun e h => hexAllowedLenE_none_of_ge e h⟩
  · intro e he
    have h1 : e.length / 16 < 16 := by omega
    have h2 : e.length - e.length / 16 * 16 < 16 := by omega
    refine ⟨_, hexAllowedLenE_eq_of_lt e (by omega), ?_⟩
    simp only [decodeLenCodes]
    rw [hexCodeVal_hexCharCode _ h1, hexCodeVal_hexCharCode _ h2]
    show some (e.length / 16 * 16 + (e.length - e.length / 16 * 16)) = some e.length
    congr 1
    omega
  · intro e h256 hlt
    have h1 : 15 < e.length / 16 := by omega
    refine ⟨h1, ?_, ?_⟩
    · rw [hexCharCode_of_gt _ h1]
      omega
    · refine ⟨_, hexAllowedLenE_eq_of_lt e hlt, ?_⟩
      simp only [decodeLenCodes]
      rw [hexCodeVal_none_of_gt _ h1]

theorem claim_C3_witness :
    (∃ cs, hexAllowedLenE "ab" = some cs ∧ decodeLenCodes cs = some "ab".length)
    ∧ (15 < (String.mk (List.replicate 256 'a')).length / 16
       ∧ 70 < hexCharCode ((String.mk (List.replicate 256 'a')).length / 16)
       ∧ ∃ cs, hexAllowedLenE (String.mk (List.replicate 256 'a')) = some cs
           ∧ decodeLenCodes cs = none)
    ∧ hexAllowedLenE (String.mk (List.replicate 17824912 'a')) = none := by
  have h256 : (String.mk (List.replicate 256 'a')).length = 256 := by
    rw [string_length_eq_data_length, List.length_replicate]
  have hbig : (String.mk (List.replicate 17824912 'a')).length = 17824912 := by
    rw [string_length_eq_data_length, List.length_replicate]
  exact ⟨claim_C3.1 "ab" (by decide),
    claim_C3.2.1 _ (by omega) (by omega),
    claim_C3.2.2 _ (by omega)⟩

/-- Claim C10: when every element is at most 255 characters long, greedily
reading a two-hex-digit length and then that many characters inverts
`allowedString` exactly, and the output length is the sum over elements of
element length plus 2. -/
theorem claim_C10 (l : List String) (h : ∀ e ∈ l, e.length ≤ 255) :
    decodeAllowed (allowedString l).data = some l
    ∧ (allowedString l).length = (l.map (fun e => e.length + 2)).sum :=
  ⟨decodeAllowed_allowedString l h, allowedString_length l⟩

theorem claim_C10_witness :
    decodeAllowed (allowedString ["ab", "c", ""]).data = some ["ab", "c", ""]
    ∧ (allowedString ["ab", "c", ""]).length
        = ((["ab", "c", ""] : List String).map (fun e => e.length + 2)).sum :=
  claim_C10 ["ab", "c", ""] (by decide)

/-! ## Traversal lemmas -/

mutual

theorem export_node_eq_preorder (g : Bool) : (n : VSSNode) →
    export_node g n = (preorder n).map (fun m => mkRecord g m.data m.children.length)
  | .mk d cs => by
    rw [export_node, preorder, List.map_cons, exportChildren_eq_preorder g cs]
    rfl

theorem exportChildren_eq_preorder (g : Bool) : (ns : List VSSNode) →
    exportChildren g ns = (preorderList ns).map (fun m => mkRecord g m.data m.children.length)
  | [] => rfl
  | n :: ns => by
    rw [exportChildren, preorderList, List.map_append,
      export_node_eq_preorder g n, exportChildren_eq_preorder g ns]

end

mutual

theorem export_node_length (g : Bool) : (n : VSSNode) →
    (export_node g n).length = treeSize n
  | .mk d cs => by
    rw [export_node, treeSize, List.length_cons, exportChildren_length g cs]
    omega

theorem exportChildren_length (g : Bool) : (ns : List VSSNode) →
    (exportChildren g ns).length = forestSize ns
  | [] => rfl
  | n :: ns => by
    rw [exportChildren, forestSize, List.length_append,
      export_node_length g n, exportChildren_length g ns]

end

/-! ## Claims about the traversal -/

/-- Claim C1: `export_node` emits exactly one record per node — the record
stream is the image of the spec-side pre-order node listing (root first, each
node before its own descendants, children in child order), and its length is
the total node count. -/
theorem claim_C1 (generate_uuid : Bool) (n : VSSNode) :
    export_node generate_uuid n
      = (preorder n).map (fun m => mkRecord generate_uuid m.data m.children.length)
    ∧ (export_node generate_uuid n).length = treeSize n
    ∧ (export_node generate_uuid n).head?
      = some (mkRecord generate_uuid n.data n.children.length) := by
  refine ⟨export_node_eq_preorder generate_uuid n, export_node_length generate_uuid n, ?_⟩
  cases n with
  | mk d cs => rw [export_node]; rfl

/-- Claim C9: the deprecation, comment and aggregate attributes do not reach
the emitted record — the record is built from name, type, uuid, description,
data type, min, max, unit, allowed, default, validate and child count only,
so replacing those three attributes changes neither a node's record nor the
whole emitted stream. -/
theorem claim_C9 (g : Bool) (d : NodeData) (cs : List VSSNode) (dep com : String)
    (agg : Option String) :
    export_node g (VSSNode.mk (d.withMeta dep com agg) cs) = export_node g (VSSNode.mk d cs)
    ∧ mkRecord g (d.withMeta dep com agg) cs.length = mkRecord g d cs.length := by
  constructor
  · rw [export_node, export_node]
    rfl
  · rfl

theorem dataType_value_ne_empty (t : VSSDataType) : t.value ≠ "" := by
  cases t <;> decide

theorem mkRecord_data_type_iff (g : Bool) (d : NodeData) (k : Nat) :
    ((mkRecord g d k).data_type ≠ ""
      ↔ ((mkRecord g d k).type = "sensor" ∨ (mkRecord g d k).type = "actuator"
          ∨ (mkRecord g d k).type = "attribute")) := by
  cases htype : d.type <;>
    simp [mkRecord, VSSType.value, htype, dataType_value_ne_empty]

/-- Claim C5: an emitted record carries a non-empty data-type string exactly
when the node's type is sensor, actuator or attribute — in which case it is
the node's data-type registry value — and the empty string for branch,
rbranch and element nodes. -/
theorem claim_C5 :
    (∀ (g : Bool) (n : VSSNode) (r : Record), r ∈ export_node g n →
      (r.data_type ≠ ""
        ↔ (r.type = "sensor" ∨ r.type = "actuator" ∨ r.type = "attribute")))
    ∧ (∀ (g : Bool) (d : NodeData) (k : Nat),
        ((d.type = VSSType.SENSOR ∨ d.type = VSSType.ACTUATOR ∨ d.type = VSSType.ATTRIBUTE) →
          (mkRecord g d k).data_type = d.data_type.value
          ∧ (mkRecord g d k).data_type ≠ "")
        ∧ ((d.type = VSSType.BRANCH ∨ d.type = VSSType.RBRANCH ∨ d.type = VSSType.ELEMENT) →
          (mkRecord g d k).data_type = "")) := by
  constructor
  · intro g n r hr
    rw [export_node_eq_preorder] at hr
    obtain ⟨m, _, rfl⟩ := List.mem_map.mp hr
    exact mkRecord_data_type_iff g m.data m.children.length
  · intro g d k
    constructor
    · intro h
      constructor
      · rcases h with h | h | h <;> simp [mkRecord, h]
      · rcases h with h | h | h <;> simp [mkRecord, h, dataType_value_ne_empty]
    · intro h
      rcases h with h | h | h <;> simp [mkRecord, h]

theorem claim_C5_witness :
    ((mkRecord true sensorNodeData 0).data_type ≠ ""
      ↔ ((mkRecord true sensorNodeData 0).type = "sensor"
          ∨ (mkRecord true sensorNodeData 0).type = "actuator"
          ∨ (mkRecord true sensorNodeData 0).type = "attribute"))
    ∧ (mkRecord true sensorNodeData 0).data_type = VSSDataType.FLOAT.value
    ∧ (mkRecord true sensorNodeData 0).data_type ≠ "" := by
  refine ⟨claim_C5.1 true (VSSNode.mk sensorNodeData []) (mkRecord true sensorNodeData 0)
    (by simp [export_node, exportChildren]), ?_⟩
  exact (claim_C5.2 true sensorNodeData 0).1 (Or.inl rfl)

/-! ## Registry lemmas -/

theorem dictLookup_dictInsert_self {V : Type} (m : List (String × V)) (k : String) (v : V) :
    dictLookup (dictInsert m k v) k = some v := by
  induction m with
  | nil => simp [dictInsert, dictLookup]
  | cons p rest ih =>
    obtain ⟨k0, v0⟩ := p
    by_cases h : k0 = k <;> simp [dictInsert, dictLookup, h, ih]

theorem dictLookup_dictInsert_other {V : Type} (m : List (String × V)) (k t : String) (v : V)
    (h : k ≠ t) : dictLookup (dictInsert m k v) t = dictLookup m t := by
  induction m with
  | nil => simp [dictInsert, dictLookup, h]
  | cons p rest ih =>
    obtain ⟨k0, v0⟩ := p
    by_cases h0 : k0 = k
    · subst h0
      simp [dictInsert, dictLookup, h]
    · by_cases ht : k0 = t <;> simp [dictInsert, dictLookup, h0, ht, ih, Ne.symm h]

theorem add_config_cons (st : EnumState) (t : String) (info : ConfigInfo)
    (rest : List (String × ConfigInfo)) :
    add_config st ((t, info) :: rest)
      = add_config
          { attrs := dictInsert st.attrs (derivedKey info.label)
              ⟨info.label, t, info.description, info.domain⟩
            reverse_lookup := dictInsert st.reverse_lookup t
              ⟨info.label, t, info.description, info.domain⟩ }
          rest :=
  rfl

theorem from_str_add_config_not_mem (cfg : List (String × ConfigInfo)) (st : EnumState)
    (t : String) (h : t ∉ cfg.map Prod.fst) :
    from_str (add_config st cfg) t = from_str st t := by
  induction cfg generalizing st with
  | nil => rfl
  | cons p rest ih =>
    obtain ⟨t0, info0⟩ := p
    simp only [List.map_cons, List.mem_cons, not_or] at h
    obtain ⟨h1, h2⟩ := h
    rw [add_config_cons, ih _ h2]
    exact dictLookup_dictInsert_other st.reverse_lookup t0 t _ (fun hh => h1 hh.symm)

theorem from_str_add_config_mem (cfg : List (String × ConfigInfo)) (st : EnumState)
    (t : String) (info : ConfigInfo) (hmem : (t, info) ∈ cfg)
    (hnodup : (cfg.map Prod.fst).Nodup) :
    from_str (add_config st cfg) t
      = some ⟨info.label, t, info.description, info.domain⟩ := by
  induction cfg generalizing st with
  | nil => cases hmem
  | cons p rest ih =>
    obtain ⟨t0, info0⟩ := p
    simp only [List.map_cons, List.nodup_cons] at hnodup
    obtain ⟨hnotin, hnodup2⟩ := hnodup
    rcases List.mem_cons.mp hmem with heq | hmem2
    · injection heq with heq1 heq2
      subst heq1
      subst heq2
      rw [add_config_cons, from_str_add_config_not_mem rest _ t hnotin]
      exact dictLookup_dictInsert_self st.reverse_lookup t _
    · rw [add_config_cons]
      exact ih _ hmem2 hnodup2

theorem dictInsert_keys {V : Type} (m : List (String × V)) (k : String) (v : V) :
    (dictInsert m k v).map Prod.fst
      = if k ∈ m.map Prod.fst then m.map Prod.fst else m.map Prod.fst ++ [k] := by
  induction m with
  | nil => simp [dictInsert]
  | cons p rest ih =>
    obtain ⟨k0, v0⟩ := p
    by_cases h : k0 = k
    · subst h
      simp [dictInsert]
    · have hne : ¬ k = k0 := fun hh => h hh.symm
      rw [show dictInsert ((k0, v0) :: rest) k v = (k0, v0) :: dictInsert rest k v from by
        simp [dictInsert, h]]
      rw [List.map_cons, ih, List.map_cons]
      by_cases hk : k ∈ rest.map Prod.fst
      · rw [if_pos hk, if_pos (by simp [hk])]
      · rw [if_neg hk, if_neg (by simp [List.mem_cons, hk, hne])]
        rfl

theorem add_config_values_append (cfg : List (String × ConfigInfo)) (st : EnumState) :
    ∃ fresh : List String,
      EnumState.values (add_config st cfg) = EnumState.values st ++ fresh
      ∧ (∀ t ∈ fresh, t ∉ EnumState.values st)
      ∧ fresh.Nodup := by
  induction cfg generalizing st with
  | nil => exact ⟨[], by simp [add_config, iterate_config_members, List.foldl], by simp, List.nodup_nil⟩
  | cons p rest ih =>
    obtain ⟨t0, info0⟩ := p
    rw [add_config_cons]
    have hvals : ∀ a : List (String × VSSConstant),
        EnumState.values
          { attrs := a
            reverse_lookup := dictInsert st.reverse_lookup t0
              ⟨info0.label, t0, info0.description, info0.domain⟩ }
          = if t0 ∈ EnumState.values st then EnumState.values st
            else EnumState.values st ++ [t0] :=
      fun a => dictInsert_keys st.reverse_lookup t0 _
    obtain ⟨fresh, hf1, hf2, hf3⟩ := ih
      { attrs := dictInsert st.attrs (derivedKey info0.label)
          ⟨info0.label, t0, info0.description, info0.domain⟩
        reverse_lookup := dictInsert st.reverse_lookup t0
          ⟨info0.label, t0, info0.description, info0.domain⟩ }
    by_cases h : t0 ∈ EnumState.values st
    · refine ⟨fresh, ?_, ?_, hf3⟩
      · rw [hf1, hvals, if_pos h]
      · intro t htf
        have := hf2 t htf
        rwa [hvals, if_pos h] at this
    · refine ⟨t0 :: fresh, ?_, ?_, ?_⟩
      · rw [hf1, hvals, if_neg h, List.append_assoc]
        rfl
      · intro t ht
        rcases List.mem_cons.mp ht with rfl | htf
        · exact h
        · have := hf2 t htf
          rw [hvals, if_neg h] at this
          exact fun hh => this (by simp [hh])
      · rw [List.nodup_cons]
        refine ⟨fun htf => ?_, hf3⟩
        have := hf2 t0 htf
        rw [hvals, if_neg h] at this
        exact this (by simp)

/-! ## Claims about the registry -/

/-- Claim C6: resolving a token registered through `add_config` returns the
exact entry built from that token's configuration — label, description and
domain preserved and value equal to the token. -/
theorem claim_C6 (st : EnumState) (config : List (String × ConfigInfo)) (t : String)
    (info : ConfigInfo) (hmem : (t, info) ∈ config)
    (hnodup : (config.map Prod.fst).Nodup) :
    from_str (add_config st config) t
      = some ⟨info.label, t, info.description, info.domain⟩ :=
  from_str_add_config_mem config st t info hmem hnodup

theorem claim_C6_witness :
    from_str (add_config { attrs := [], reverse_lookup := [] } cfgUnits) "km/h"
      = some ⟨"kilometre per hour", "km/h", some "updated", none⟩ :=
  claim_C6 { attrs := [], reverse_lookup := [] } cfgUnits "km/h"
    ⟨"kilometre per hour", some "updated", none⟩ (by decide) (by decide)

/-- Claim C7: the registry key derivation deletes every character that is not
a letter or digit and upper-cases the remainder; `UNIX Timestamp` derives
`UNIXTIMESTAMP` and `km/h` derives `KMH`. -/
theorem claim_C7 :
    (∀ s : String, (derivedKey s).data
        = (s.data.filter (fun c => c.isAlpha || c.isDigit)).map Char.toUpper)
    ∧ derivedKey "UNIX Timestamp" = "UNIXTIMESTAMP"
    ∧ derivedKey "km/h" = "KMH" :=
  ⟨fun _ => rfl, by decide, by decide⟩

/-- Claim C8: extending the registry never duplicates a token and never
removes one — the token sequence after `add_config` is the old sequence with
only fresh tokens appended (so it is duplicate-free and reflects insertion
order), and a token already present is overwritten in place, its resolution
giving the newest entry. -/
theorem claim_C8 (st : EnumState) (cfg : List (String × ConfigInfo))
    (h : (EnumState.values st).Nodup) :
    (EnumState.values (add_config st cfg)).Nodup
    ∧ (∀ t ∈ EnumState.values st, t ∈ EnumState.values (add_config st cfg))
    ∧ (∃ fresh : List String,
        EnumState.values (add_config st cfg) = EnumState.values st ++ fresh
        ∧ ∀ t ∈ fresh, t ∉ EnumState.values st)
    ∧ (∀ t info, (t, info) ∈ cfg → (cfg.map Prod.fst).Nodup →
        from_str (add_config st cfg) t
          = some ⟨info.label, t, info.description, info.domain⟩) := by
  obtain ⟨fresh, h1, h2, h3⟩ := add_config_values_append cfg st
  refine ⟨?_, ?_, ⟨fresh, h1, h2⟩, ?_⟩
  · rw [h1]
    exact h.append h3 (fun a ha hf => h2 a hf ha)
  · intro t ht
    rw [h1]
    exact List.mem_append_left _ ht
  · intro t info hm hn
    exact from_str_add_config_mem cfg st t info hm hn

theorem claim_C8_witness :
    (EnumState.values (add_config regKmh cfgUnits)).Nodup
    ∧ "km/h" ∈ EnumState.values (add_config regKmh cfgUnits)
    ∧ (∃ fresh : List String,
        EnumState.values (add_config regKmh cfgUnits) = EnumState.values regKmh ++ fresh
        ∧ ∀ t ∈ fresh, t ∉ EnumState.values regKmh)
    ∧ from_str (add_config regKmh cfgUnits) "km/h"
        = some ⟨"kilometre per hour", "km/h", some "updated", none⟩ := by
  obtain ⟨ha, hb, hc, hd⟩ := claim_C8 regKmh cfgUnits (by decide)
  exact ⟨ha, hb "km/h" (by decide), hc,
    hd "km/h" ⟨"kilometre per hour", some "updated", none⟩ (by decide) (by decide)⟩

/-! ## Failure-model lemmas -/

theorem resolveUnit_error (st : EnumState) (o : Option String) (e : EncodeError)
    (h : resolveUnit st o = Except.error e) :
    ∃ tok, e = EncodeError.unresolvedSymbol tok ∧ from_str st tok = none ∧ o = some tok := by
  cases o with
  | none => simp [resolveUnit] at h
  | some tok =>
    cases hf : from_str st tok with
    | some c => simp [resolveUnit, hf] at h
    | none =>
      simp only [resolveUnit, hf] at h
      injection h with h2
      exact ⟨tok, h2.symm, hf, rfl⟩

mutual

theorem encodeE_error_cases (st : EnumState) (sink : Record → Bool) (g : Bool) :
    (n : NodeU) → ∀ e, encodeE st sink g n = Except.error e →
      e = EncodeError.sinkError
      ∨ ∃ tok, e = EncodeError.unresolvedSymbol tok ∧ from_str st tok = none
  | .mk d cs => by
    intro e he
    rw [encodeE] at he
    cases hr : resolveUnit st d.unit with
    | error eu =>
      rw [hr] at he
      obtain ⟨tok, h1, h2, _⟩ := resolveUnit_error st d.unit eu hr
      injection he with he2
      subst he2
      exact Or.inr ⟨tok, h1, h2⟩
    | ok u =>
      rw [hr] at he
      simp only at he
      by_cases hs : sink (mkRecordU g d u cs.length)
      · rw [if_pos hs] at he
        cases hf : encodeForestE st sink g cs with
        | ok rs => rw [hf] at he; cases he
        | error e2 =>
          rw [hf] at he
          injection he with he2
          exact he2 ▸ encodeForestE_error_cases st sink g cs e2 hf
      · rw [if_neg hs] at he
        injection he with he2
        subst he2
        exact Or.inl rfl

theorem encodeForestE_error_cases (st : EnumState) (sink : Record → Bool) (g : Bool) :
    (ns : List NodeU) → ∀ e, encodeForestE st sink g ns = Except.error e →
      e = EncodeError.sinkError
      ∨ ∃ tok, e = EncodeError.unresolvedSymbol tok ∧ from_str st tok = none
  | [] => by
    intro e he
    rw [encodeForestE] at he
    cases he
  | n :: ns => by
    intro e he
    rw [encodeForestE] at he
    cases h1 : encodeE st sink g n with
    | error e1 =>
      rw [h1] at he
      injection he with he2
      exact he2 ▸ encodeE_error_cases st sink g n e1 h1
    | ok rs =>
      rw [h1] at he
      cases h2 : encodeForestE st sink g ns with
      | ok rs2 => rw [h2] at he; cases he
      | error e2 =>
        rw [h2] at he
        injection he with he2
        exact he2 ▸ encodeForestE_error_cases st sink g ns e2 h2

end

/-! ## Claim about the failure modes -/

/-- Claim C4: `encode` fails only with the sink's own failure signal or with
an unresolved-symbol error naming a token absent from the registry; a node
whose unit token does not resolve makes the encode of that node fail without
emitting its record, while an unset unit merely yields an empty unit field in
an otherwise emitted record. -/
theorem claim_C4 :
    (∀ (st : EnumState) (sink : Record → Bool) (g : Bool) (n : NodeU) (e : EncodeError),
        encodeE st sink g n = Except.error e →
        e = EncodeError.sinkError
        ∨ ∃ tok, e = EncodeError.unresolvedSymbol tok ∧ from_str st tok = none)
    ∧ (∀ (st : EnumState) (sink : Record → Bool) (g : Bool) (d : NodeDataU)
        (cs : List NodeU) (tok : String),
        d.unit = some tok → from_str st tok = none →
        encodeE st sink g (NodeU.mk d cs)
          = Except.error (EncodeError.unresolvedSymbol tok))
    ∧ (∀ (st : EnumState) (sink : Record → Bool) (g : Bool) (d : NodeDataU)
        (cs : List NodeU) (rs : List Record),
        d.unit = none → encodeE st sink g (NodeU.mk d cs) = Except.ok rs →
        ∃ rest, rs = mkRecordU g d "" cs.length :: rest
          ∧ (mkRecordU g d "" cs.length).unit = "") := by
  refine ⟨encodeE_error_cases, ?_, ?_⟩
  · intro st sink g d cs tok hu hf
    rw [encodeE, hu]
    simp [resolveUnit, hf]
  · intro st sink g d cs rs hu hok
    rw [encodeE, hu] at hok
    simp only [resolveUnit] at hok
    by_cases hs : sink (mkRecordU g d "" cs.length)
    · rw [if_pos hs] at hok
      cases hf : encodeForestE st sink g cs with
      | ok rs2 =>
        rw [hf] at hok
        injection hok with hok2
        exact ⟨rs2, hok2.symm, rfl⟩
      | error e2 => rw [hf] at hok; cases hok
    · rw [if_neg hs] at hok
      cases hok

theorem claim_C4_witness :
    (EncodeError.unresolvedSymbol "mph" = EncodeError.sinkError
      ∨ ∃ tok, EncodeError.unresolvedSymbol "mph" = EncodeError.unresolvedSymbol tok
          ∧ from_str regKmh tok = none)
    ∧ encodeE regKmh (fun _ => true) true (NodeU.mk badNodeDataU [])
        = Except.error (EncodeError.unresolvedSymbol "mph")
    ∧ ∃ rest, [mkRecordU true goodNodeDataU "" 0] = mkRecordU true goodNodeDataU "" 0 :: rest
        ∧ (mkRecordU true goodNodeDataU "" 0).unit = "" := by
  refine ⟨claim_C4.1 regKmh (fun _ => true) true (NodeU.mk badNodeDataU [])
      (EncodeError.unresolvedSymbol "mph") rfl,
    claim_C4.2.1 regKmh (fun _ => true) true badNodeDataU [] "mph" rfl rfl,
    claim_C4.2.2 regKmh (fun _ => true) true goodNodeDataU []
      [mkRecordU true goodNodeDataU "" 0] rfl rfl⟩

end VSS
